import Mathlib

/-!
Formal model of the document-to-structure ingestion pipeline
(text chunking, LLM JSON extraction and sanitization, chapter merging,
incremental persistence, and status derivation), embedded shallowly from
the TypeScript sources, with theorems settling the specification's claims.

Strings are modelled as `List Char`; machine numbers as `Nat`/`Int`.
-/

/-! ## Chunker (src/lib/pdf-extractor.ts / src/lib/prompts.ts, `chunkText`) -/

/-- A bounded slice of raw text, as produced by `chunkText`. -/
structure TextChunk where
  text : List Char
  page : Nat
  startIndex : Nat
  endIndex : Nat
  deriving Repr, DecidableEq

/-- The loop body of `chunkText`: starting from `startIndex`, repeatedly slice
`min (startIndex + m) t.length` and advance.  The source's `while` loop
terminates exactly when `startIndex ≥ text.length` (for `m = 0` and nonempty
text the source loop does not terminate; the guard `0 < m` makes that
explicit). -/
def chunkTextFrom (t : List Char) (m : Nat) (startIndex : Nat) : List TextChunk :=
  if startIndex < t.length ∧ 0 < m then
    { text := (t.drop startIndex).take (min (startIndex + m) t.length - startIndex),
      page := 0,
      startIndex := startIndex,
      endIndex := min (startIndex + m) t.length } ::
      chunkTextFrom t m (min (startIndex + m) t.length)
  else []
termination_by t.length - startIndex
decreasing_by omega

/-- `chunkText(text, maxChunkSize)`: greedy fixed-size slicing from offset 0. -/
def chunkText (t : List Char) (m : Nat) : List TextChunk :=
  chunkTextFrom t m 0

theorem ceilDiv_step (r m : Nat) (hr : 0 < r) (hm : 0 < m) :
    (r - m + m - 1) / m + 1 = (r + m - 1) / m := by
  rcases le_or_lt m r with h | h
  · have h1 : r - m + m - 1 = r - 1 := by omega
    have h2 : r + m - 1 = (r - 1) + m := by omega
    rw [h1, h2, Nat.add_div_right _ hm]
  · have h1 : r - m + m - 1 = m - 1 := by omega
    have h2 : (m - 1) / m = 0 := Nat.div_eq_of_lt (by omega)
    have h3 : r + m - 1 = (r - 1) + m := by omega
    rw [h1, h2, h3, Nat.add_div_right _ hm, Nat.div_eq_of_lt (by omega)]

theorem chunkTextFrom_join (t : List Char) (m : Nat) (hm : 0 < m) :
    ∀ s, ((chunkTextFrom t m s).map TextChunk.text).flatten = t.drop s := by
  intro s
  induction s using chunkTextFrom.induct t m with
  | case1 s h ih =>
    rw [chunkTextFrom, if_pos h]
    simp only [List.map_cons, List.flatten_cons, ih]
    have he : t.drop (min (s + m) t.length)
        = (t.drop s).drop (min (s + m) t.length - s) := by
      rw [List.drop_drop]
      congr 1
      omega
    rw [he, List.take_append_drop]
  | case2 s h =>
    rw [chunkTextFrom, if_neg h]
    simp only [List.map_nil, List.flatten_nil]
    have hle : t.length ≤ s := by omega
    exact (List.drop_eq_nil_of_le hle).symm

theorem chunkTextFrom_length (t : List Char) (m : Nat) (hm : 0 < m) :
    ∀ s, (chunkTextFrom t m s).length = (t.length - s + m - 1) / m := by
  intro s
  induction s using chunkTextFrom.induct t m with
  | case1 s h ih =>
    rw [chunkTextFrom, if_pos h]
    simp only [List.length_cons, ih]
    have harith : t.length - min (s + m) t.length = t.length - s - m := by omega
    rw [harith]
    exact ceilDiv_step (t.length - s) m (by omega) hm
  | case2 s h =>
    rw [chunkTextFrom, if_neg h]
    simp only [List.length_nil]
    have h2 : t.length - s = 0 := by omega
    rw [h2]
    exact (Nat.div_eq_of_lt (by omega)).symm

/-- C1: for every text T and maxSize M > 0, concatenating in order the `text`
fields of the chunks returned by `chunkText T M` reproduces T exactly, and the
number of chunks equals ⌈len(T)/M⌉ (written `(len + M - 1) / M`). -/
theorem chunkText_concat_and_count (t : List Char) (m : Nat) (hm : 0 < m) :
    ((chunkText t m).map TextChunk.text).flatten = t ∧
    (chunkText t m).length = (t.length + m - 1) / m := by
  constructor
  · simpa using chunkTextFrom_join t m hm 0
  · simpa using chunkTextFrom_length t m hm 0

/-- Witness for C1 at T = "abcde", M = 2 (3 chunks: "ab", "cd", "e"). -/
theorem chunkText_concat_and_count_witness :
    0 < 2 ∧
    (((chunkText "abcde".toList 2).map TextChunk.text).flatten = "abcde".toList ∧
     (chunkText "abcde".toList 2).length = ("abcde".toList.length + 2 - 1) / 2) :=
  ⟨by decide, chunkText_concat_and_count "abcde".toList 2 (by decide)⟩

/-- C7 counterexample: the claim as stated quantifies over every text with
`len(T) ≤ M`, including the empty text; but `chunkText "" 5` returns no
chunks at all, not one chunk. -/
theorem chunkText_empty_input_counterexample :
    "".toList.length ≤ 5 ∧ chunkText "".toList 5 = [] ∧
    (chunkText "".toList 5).length ≠ 1 := by
  refine ⟨by decide, ?_, ?_⟩ <;> simp [chunkText, chunkTextFrom]

/-- C7 amended: for any NON-EMPTY text T with `len(T) ≤ M`, `chunkText T M`
returns exactly one chunk whose text equals T. -/
theorem chunkText_single (t : List Char) (m : Nat) (h0 : 0 < t.length)
    (h1 : t.length ≤ m) :
    (chunkText t m).map TextChunk.text = [t] := by
  have hm : 0 < m := lt_of_lt_of_le h0 h1
  have hj := chunkTextFrom_join t m hm 0
  have hl := chunkTextFrom_length t m hm 0
  have hlen1 : (t.length - 0 + m - 1) / m = 1 := by
    have he : t.length - 0 + m - 1 = (t.length - 1) + m := by omega
    rw [he, Nat.add_div_right _ hm, Nat.div_eq_of_lt (by omega)]
  rw [hlen1] at hl
  match hc : chunkText t m with
  | [] => rw [show chunkText t m = chunkTextFrom t m 0 from rfl] at hc
          rw [hc] at hl; simp at hl
  | [c] => rw [show chunkText t m = chunkTextFrom t m 0 from rfl] at hc
           rw [hc] at hj
           simpa using hj
  | c1 :: c2 :: rest =>
          rw [show chunkText t m = chunkTextFrom t m 0 from rfl] at hc
          rw [hc] at hl; simp at hl

/-- Witness for the amended C7 at T = "ab", M = 5. -/
theorem chunkText_single_witness :
    (0 < "ab".toList.length ∧ "ab".toList.length ≤ 5) ∧
    (chunkText "ab".toList 5).map TextChunk.text = ["ab".toList] :=
  ⟨⟨by decide, by decide⟩, chunkText_single "ab".toList 5 (by decide) (by decide)⟩

/-! ## Status derivation (src/app/api/status/[documentId]/route.ts, GET) -/

/-- The externally exposed coarse status. -/
inductive ProcessingStatus
  | uploaded
  | processing
  | completed
  | failed
  deriving Repr, DecidableEq

/-- The status computation at the end of the status route's GET handler:
`let status = 'uploaded'; if (doc.status === 'failed') ... else if (book) ...
else if (doc.status === 'processing' || doc.status === 'parsing') ...`. -/
def deriveStatus (docStatus : List Char) (bookExists : Bool) : ProcessingStatus :=
  if docStatus = "failed".toList then .failed
  else if bookExists then .completed
  else if docStatus = "processing".toList ∨ docStatus = "parsing".toList then
    .processing
  else .uploaded

/-- C4: the exposed status is a pure function of (Document.status, Book
existence), by priority: `failed` whenever the document's own status is
`failed` regardless of the book; else `completed` whenever a book exists;
else `processing` when the document status indicates active work
(`processing` or `parsing`); else `uploaded`. -/
theorem deriveStatus_priority :
    (∀ b, deriveStatus "failed".toList b = .failed) ∧
    (∀ s b, s ≠ "failed".toList → b = true → deriveStatus s b = .completed) ∧
    (∀ s, s ≠ "failed".toList →
      (s = "processing".toList ∨ s = "parsing".toList) →
      deriveStatus s false = .processing) ∧
    (∀ s, s ≠ "failed".toList → s ≠ "processing".toList → s ≠ "parsing".toList →
      deriveStatus s false = .uploaded) := by
  refine ⟨fun b => by simp [deriveStatus], ?_, ?_, ?_⟩
  · intro s b h1 h2
    subst h2
    unfold deriveStatus
    rw [if_neg h1]
    simp
  · intro s h1 h2
    unfold deriveStatus
    rw [if_neg h1]
    simp only [Bool.false_eq_true, if_false]
    rw [if_pos h2]
  · intro s h1 h2 h3
    unfold deriveStatus
    rw [if_neg h1]
    simp only [Bool.false_eq_true, if_false]
    rw [if_neg (by tauto)]

/-- Witness for C4: a book exists for a non-failed document ⇒ `completed`. -/
theorem deriveStatus_priority_witness :
    "uploaded".toList ≠ "failed".toList ∧
    deriveStatus "uploaded".toList true = .completed :=
  ⟨by decide, deriveStatus_priority.2.1 "uploaded".toList true (by decide) rfl⟩

/-! ## Parsed structures and persistence (src/unnamed/part_004) -/

/-- One verse recovered by the LLM. -/
structure ParsedVerse where
  number : Nat
  originalText : List Char
  translation : List Char
  deriving Repr, DecidableEq

/-- One chapter recovered by the LLM. -/
structure ParsedChapter where
  number : Nat
  title : List Char
  verses : List ParsedVerse
  deriving Repr, DecidableEq

/-- One LLM extraction result (per chunk or whole document). -/
structure ParsedDocument where
  title : List Char
  description : List Char
  language : List Char
  chapters : List ParsedChapter
  deriving Repr, DecidableEq

/-- A durable verse record (table `verses`). -/
structure VerseRow where
  bookId : Nat
  chapterNumber : Nat
  verseNumber : Nat
  originalText : List Char
  translation : List Char
  deriving Repr, DecidableEq

/-- A durable chapter record (table `chapters`). -/
structure ChapterRow where
  bookId : Nat
  number : Nat
  title : List Char
  verseCount : Nat
  deriving Repr, DecidableEq

/-- A durable book record (table `books`). -/
structure BookRow where
  id : Nat
  documentId : Nat
  title : List Char
  description : List Char
  language : List Char
  totalChapters : Nat
  totalVerses : Nat
  deriving Repr, DecidableEq

/-- The relational store consumed through the narrow insert/update contract. -/
structure DB where
  books : List BookRow
  chapters : List ChapterRow
  verses : List VerseRow
  deriving Repr, DecidableEq

inductive LogLevel
  | info
  | error
  deriving Repr, DecidableEq

/-- One processing-log entry (ProgressReporter). -/
structure LogEntry where
  level : LogLevel
  message : List Char
  deriving Repr, DecidableEq

/-- Pipeline-visible state: the store plus the append-only log stream. -/
structure PState where
  db : DB
  logs : List LogEntry
  deriving Repr, DecidableEq

/-- `ProcessingContext` of the process route: target book and the per-run
in-memory set of already-inserted chapter numbers. -/
structure Ctx where
  bookId : Nat
  insertedChapters : List Nat
  deriving Repr, DecidableEq

/-- `needle` is an initial segment of `hay` (helper for substring search). -/
def leadsWith : List Char → List Char → Bool
  | _, [] => true
  | [], _ :: _ => false
  | h :: t, n :: ns => h == n && leadsWith t ns

/-- JS `hay.includes(needle)` on strings. -/
def strIncludes : List Char → List Char → Bool
  | [], needle => needle.isEmpty
  | h :: t, needle => leadsWith (h :: t) needle || strIncludes t needle

/-- `isDuplicateError` (src/unnamed/part_004): the error message (empty for a
non-`Error` throw) contains 'duplicate' or 'unique'. -/
def isDuplicateError (msg : List Char) : Bool :=
  strIncludes msg "duplicate".toList || strIncludes msg "unique".toList

/-- The (book, chapter, verse) key is already present in the `verses` table. -/
def verseKeyTaken (db : DB) (bookId chapterNum verseNum : Nat) : Bool :=
  db.verses.any fun r =>
    r.bookId == bookId && r.chapterNumber == chapterNum &&
      r.verseNumber == verseNum

/-- Modelled from the spec: the underlying store's `insertVerse`
(src/lib/db-operations.ts executes a plain INSERT; the `verses` table carries
UNIQUE(book_id, chapter_number, verse_number) in supabase-schema.sql, so a
duplicate-key insert fails with Postgres's "duplicate key value violates
unique constraint" message instead of inserting). -/
def insertVerse (db : DB) (v : VerseRow) : Except (List Char) DB :=
  if verseKeyTaken db v.bookId v.chapterNumber v.verseNumber then
    .error "duplicate key value violates unique constraint".toList
  else
    .ok { db with verses := db.verses ++ [v] }

/-- Modelled from the spec: the underlying store's `insertChapter` appends a
chapter row; its (book, number) uniqueness failure path is never exercised by
the pipeline because `storeChapter` guards every insert with the per-run
`insertedChapters` set. -/
def insertChapter (db : DB) (c : ChapterRow) : DB :=
  { db with chapters := db.chapters ++ [c] }

/-- The log entry written by `storeVerse`'s catch for a non-duplicate
failure: `Failed to insert verse ${chapterNum}:${verse.number}`. -/
def verseFailEntry (chapterNum verseNum : Nat) : LogEntry :=
  ⟨.error, "Failed to insert verse ".toList ++ (toString chapterNum).toList
     ++ [':'] ++ (toString verseNum).toList⟩

/-- The `try/catch` of `storeVerse` (src/unnamed/part_004): given the outcome
of the underlying insert, either accept the new store state or swallow the
error, logging it only when it is not a duplicate-key error.  The result is
`.ok` in every branch: the catch never rethrows. -/
def storeVerseCatch (st : PState) (res : Except (List Char) DB)
    (chapterNum verseNum : Nat) : Except (List Char) PState :=
  match res with
  | .ok db' => .ok { st with db := db' }
  | .error e =>
      .ok (if isDuplicateError e then st
           else { st with logs := st.logs ++ [verseFailEntry chapterNum verseNum] })

/-- `storeVerse` as a fallible computation: insert, catching any failure. -/
def storeVerseE (st : PState) (ctx : Ctx) (verse : ParsedVerse)
    (chapterNum : Nat) : Except (List Char) PState :=
  storeVerseCatch st
    (insertVerse st.db
      { bookId := ctx.bookId, chapterNumber := chapterNum,
        verseNumber := verse.number, originalText := verse.originalText,
        translation := verse.translation })
    chapterNum verse.number

/-- Total form of `storeVerse`; the `.error` fallback is dead code
(`storeVerseCatch` never rethrows, see `storeVerseCatch_swallows_all`). -/
def storeVerse (st : PState) (ctx : Ctx) (verse : ParsedVerse)
    (chapterNum : Nat) : PState :=
  match storeVerseE st ctx verse chapterNum with
  | .ok st' => st'
  | .error _ => st

/-- `storeChapter` (src/unnamed/part_004): skip if the chapter number was
already inserted in this run; otherwise insert the row with this unit's title
and verse count, record the number, and log. -/
def storeChapter (st : PState) (ctx : Ctx) (chapter : ParsedChapter) :
    PState × Ctx :=
  if chapter.number ∈ ctx.insertedChapters then (st, ctx)
  else
    ({ st with
        db := insertChapter st.db
          { bookId := ctx.bookId, number := chapter.number,
            title := chapter.title, verseCount := chapter.verses.length },
        logs := st.logs ++
          [⟨.info, "Stored Chapter ".toList ++ (toString chapter.number).toList
             ++ [':', ' '] ++ chapter.title⟩] },
     { ctx with insertedChapters := ctx.insertedChapters ++ [chapter.number] })

/-- The inner verse loop of `storeChunkData`. -/
def storeVerses (st : PState) (ctx : Ctx) (chapterNum : Nat)
    (vs : List ParsedVerse) : PState :=
  vs.foldl (fun s v => storeVerse s ctx v chapterNum) st

/-- One iteration of the chapter loop of `storeChunkData`: store the chapter,
then each of its verses. -/
def chapterStep (p : PState × Ctx) (c : ParsedChapter) : PState × Ctx :=
  let q := storeChapter p.1 p.2 c
  (storeVerses q.1 q.2 c.number c.verses, q.2)

/-- The chapter loop shared by `storeChunkData` across chunks. -/
def chaptersFold (p : PState × Ctx) (chs : List ParsedChapter) : PState × Ctx :=
  chs.foldl chapterStep p

/-- `storeChunkData` (src/unnamed/part_004): persist one parsed unit. -/
def storeChunkData (st : PState) (ctx : Ctx) (doc : ParsedDocument) :
    PState × Ctx :=
  chaptersFold (st, ctx) doc.chapters

/-- Sequential persistence of the parsed units of a run, in chunk order. -/
def runChunkData (p : PState × Ctx) (docs : List ParsedDocument) :
    PState × Ctx :=
  docs.foldl (fun p d => storeChunkData p.1 p.2 d) p

/-- The Postgres duplicate-key message satisfies `isDuplicateError`. -/
theorem isDuplicateError_dupMsg :
    isDuplicateError "duplicate key value violates unique constraint".toList
      = true := by decide

/-- C9: the catch in `storeVerse` swallows every failure of the underlying
insert — whatever the outcome `res`, the call returns normally (`.ok`), the
store keeps the insert's result, and an error log entry is written only when
the failure message contains neither 'duplicate' nor 'unique'; in particular
a duplicate-key failure produces no log entry at all. -/
theorem storeVerseCatch_swallows_all (st : PState)
    (res : Except (List Char) DB) (c v : Nat) :
    ∃ st', storeVerseCatch st res c v = .ok st' ∧
      st'.db = (match res with | .ok db' => db' | .error _ => st.db) ∧
      st'.logs = st.logs ++
        (match res with
         | .ok _ => []
         | .error e =>
             if strIncludes e "duplicate".toList || strIncludes e "unique".toList
             then [] else [verseFailEntry c v]) := by
  match res with
  | .ok db' => exact ⟨_, rfl, rfl, by simp⟩
  | .error e =>
      cases h : isDuplicateError e with
      | true =>
          have h' : (strIncludes e "duplicate".toList
              || strIncludes e "unique".toList) = true := h
          refine ⟨st, ?_, rfl, ?_⟩
          · simp only [storeVerseCatch]
            rw [if_pos h]
          · show st.logs = st.logs ++
              (if (strIncludes e "duplicate".toList
                  || strIncludes e "unique".toList) = true
               then [] else [verseFailEntry c v])
            rw [if_pos h']
            simp
      | false =>
          have h' : (strIncludes e "duplicate".toList
              || strIncludes e "unique".toList) = false := h
          refine ⟨{ st with logs := st.logs ++ [verseFailEntry c v] }, ?_, rfl, ?_⟩
          · simp only [storeVerseCatch]
            rw [if_neg (by simp [h])]
          · show st.logs ++ [verseFailEntry c v] = st.logs ++
              (if (strIncludes e "duplicate".toList
                  || strIncludes e "unique".toList) = true
               then [] else [verseFailEntry c v])
            rw [if_neg (by rw [h']; simp)]

/-- C2 counterexample: a second `storeVerse` call with identical
(book, chapter, verse) keys stores exactly one verse and returns normally,
but writes NO log entry — the conflict is swallowed silently, not "recorded
with a log entry" as claimed. -/
theorem storeVerse_duplicate_counterexample :
    (let ctx : Ctx := ⟨1, []⟩
     let v : ParsedVerse := ⟨3, "om".toList, "tr".toList⟩
     let st1 := storeVerse ⟨⟨[], [], []⟩, []⟩ ctx v 2
     let st2 := storeVerse st1 ctx v 2
     st1.db.verses.length = 1 ∧ st2 = st1 ∧ st2.logs = []) := by
  decide

/-- C2 amended: invoking `storeVerse` a second time with identical
(book, chapter, verse) keys leaves exactly one stored verse, and the
uniqueness-violation failure raised by the underlying store on the second
call is caught and not propagated to the caller — but it is swallowed
silently, with no log entry (the source logs only non-duplicate failures). -/
theorem storeVerse_twice (st : PState) (ctx : Ctx) (v : ParsedVerse) (n : Nat)
    (habs : verseKeyTaken st.db ctx.bookId n v.number = false) :
    (storeVerse st ctx v n).db.verses
        = st.db.verses ++ [⟨ctx.bookId, n, v.number, v.originalText, v.translation⟩] ∧
    storeVerseE (storeVerse st ctx v n) ctx v n = .ok (storeVerse st ctx v n) := by
  have hrow : insertVerse st.db
      ⟨ctx.bookId, n, v.number, v.originalText, v.translation⟩
      = .ok { st.db with verses := st.db.verses
          ++ [⟨ctx.bookId, n, v.number, v.originalText, v.translation⟩] } := by
    simp [insertVerse, habs]
  have hst1 : storeVerse st ctx v n
      = { st with db := { st.db with verses := st.db.verses
          ++ [⟨ctx.bookId, n, v.number, v.originalText, v.translation⟩] } } := by
    simp [storeVerse, storeVerseE, storeVerseCatch, hrow]
  have htaken : verseKeyTaken (storeVerse st ctx v n).db ctx.bookId n v.number
      = true := by
    rw [hst1]
    simp [verseKeyTaken, List.any_append]
  refine ⟨by rw [hst1], ?_⟩
  have herr : insertVerse (storeVerse st ctx v n).db
      ⟨ctx.bookId, n, v.number, v.originalText, v.translation⟩
      = .error "duplicate key value violates unique constraint".toList := by
    simp [insertVerse, htaken]
  simp only [storeVerseE]
  rw [herr]
  simp only [storeVerseCatch]
  rw [if_pos isDuplicateError_dupMsg]

/-- Witness for the amended C2 on an initially empty store. -/
theorem storeVerse_twice_witness :
    verseKeyTaken (⟨[], [], []⟩ : DB) 1 2 3 = false ∧
    ((storeVerse ⟨⟨[], [], []⟩, []⟩ ⟨1, []⟩ ⟨3, "om".toList, "tr".toList⟩ 2).db.verses
        = ([] : List VerseRow) ++ [⟨1, 2, 3, "om".toList, "tr".toList⟩] ∧
     storeVerseE (storeVerse ⟨⟨[], [], []⟩, []⟩ ⟨1, []⟩ ⟨3, "om".toList, "tr".toList⟩ 2)
         ⟨1, []⟩ ⟨3, "om".toList, "tr".toList⟩ 2
       = .ok (storeVerse ⟨⟨[], [], []⟩, []⟩ ⟨1, []⟩ ⟨3, "om".toList, "tr".toList⟩ 2)) :=
  ⟨by decide, storeVerse_twice ⟨⟨[], [], []⟩, []⟩ ⟨1, []⟩ ⟨3, "om".toList, "tr".toList⟩ 2
     (by decide)⟩

/-! ## C10: the first contributing chunk freezes each chapter row -/

/-- Chapter rows carrying a given chapter number. -/
def rowsFor (chapters : List ChapterRow) (n : Nat) : List ChapterRow :=
  chapters.filter fun r => r.number == n

/-- First chapter with a given number, in traversal order. -/
def firstChapterWith (l : List ParsedChapter) (n : Nat) : Option ParsedChapter :=
  l.find? fun c => c.number == n

/-- All chapters contributed by a run's parsed units, in unit order. -/
def allChapters (docs : List ParsedDocument) : List ParsedChapter :=
  (docs.map ParsedDocument.chapters).flatten

/-- The chapter row `storeChapter` inserts for a parsed chapter. -/
def mkChapterRow (bookId : Nat) (c : ParsedChapter) : ChapterRow :=
  ⟨bookId, c.number, c.title, c.verses.length⟩

theorem storeVerse_chapters (st : PState) (ctx : Ctx) (v : ParsedVerse)
    (n : Nat) :
    (storeVerse st ctx v n).db.chapters = st.db.chapters := by
  unfold storeVerse storeVerseE insertVerse
  by_cases h : verseKeyTaken st.db ctx.bookId n v.number = true
  · rw [if_pos h]
    simp only [storeVerseCatch]
    rw [if_pos isDuplicateError_dupMsg]
  · rw [if_neg h]
    simp only [storeVerseCatch]

theorem storeVerses_chapters (ctx : Ctx) (n : Nat) (vs : List ParsedVerse) :
    ∀ st, (storeVerses st ctx n vs).db.chapters = st.db.chapters := by
  induction vs with
  | nil => intro st; rfl
  | cons v vs ih =>
      intro st
      show (storeVerses (storeVerse st ctx v n) ctx n vs).db.chapters = _
      rw [ih (storeVerse st ctx v n), storeVerse_chapters]

theorem chapterStep_mem (p : PState × Ctx) (c : ParsedChapter)
    (hc : c.number ∈ p.2.insertedChapters) :
    (chapterStep p c).1.db.chapters = p.1.db.chapters ∧
    (chapterStep p c).2 = p.2 := by
  have hq : storeChapter p.1 p.2 c = (p.1, p.2) := by
    simp [storeChapter, hc]
  constructor
  · show (storeVerses (storeChapter p.1 p.2 c).1 (storeChapter p.1 p.2 c).2
        c.number c.verses).db.chapters = _
    rw [hq]
    exact storeVerses_chapters _ _ _ _
  · show (storeChapter p.1 p.2 c).2 = p.2
    rw [hq]

theorem chapterStep_new (p : PState × Ctx) (c : ParsedChapter)
    (hc : c.number ∉ p.2.insertedChapters) :
    (chapterStep p c).1.db.chapters
        = p.1.db.chapters ++ [mkChapterRow p.2.bookId c] ∧
    (chapterStep p c).2
        = { p.2 with insertedChapters := p.2.insertedChapters ++ [c.number] } := by
  have hq : storeChapter p.1 p.2 c =
      ({ p.1 with
          db := insertChapter p.1.db (mkChapterRow p.2.bookId c),
          logs := p.1.logs ++
            [⟨.info, "Stored Chapter ".toList ++ (toString c.number).toList
               ++ [':', ' '] ++ c.title⟩] },
       { p.2 with insertedChapters := p.2.insertedChapters ++ [c.number] }) := by
    simp [storeChapter, hc, mkChapterRow]
  constructor
  · show (storeVerses (storeChapter p.1 p.2 c).1 (storeChapter p.1 p.2 c).2
        c.number c.verses).db.chapters = _
    rw [hq, storeVerses_chapters]
    rfl
  · show (storeChapter p.1 p.2 c).2 = _
    rw [hq]

theorem chaptersFold_append (p : PState × Ctx) (xs ys : List ParsedChapter) :
    chaptersFold p (xs ++ ys) = chaptersFold (chaptersFold p xs) ys := by
  simp [chaptersFold, List.foldl_append]

theorem runChunkData_eq_chaptersFold (docs : List ParsedDocument) :
    ∀ p, runChunkData p docs = chaptersFold p (allChapters docs) := by
  induction docs with
  | nil => intro p; rfl
  | cons d ds ih =>
      intro p
      show runChunkData (storeChunkData p.1 p.2 d) ds = _
      rw [ih]
      show chaptersFold (chaptersFold p d.chapters) (allChapters ds) = _
      rw [← chaptersFold_append]
      simp [allChapters]

theorem firstChapterWith_cons (c : ParsedChapter) (chs : List ParsedChapter)
    (n : Nat) :
    firstChapterWith (c :: chs) n
      = if c.number == n then some c else firstChapterWith chs n := by
  cases h : c.number == n <;> simp [firstChapterWith, List.find?_cons, h]

theorem chaptersFold_spec (chs : List ParsedChapter) :
    ∀ (p : PState × Ctx) (n : Nat),
      (chaptersFold p chs).2.bookId = p.2.bookId ∧
      (n ∈ (chaptersFold p chs).2.insertedChapters ↔
        n ∈ p.2.insertedChapters ∨ firstChapterWith chs n ≠ none) ∧
      rowsFor (chaptersFold p chs).1.db.chapters n =
        rowsFor p.1.db.chapters n ++
          (if n ∈ p.2.insertedChapters then []
           else match firstChapterWith chs n with
                | none => []
                | some c => [mkChapterRow p.2.bookId c]) := by
  induction chs with
  | nil =>
      intro p n
      refine ⟨rfl, by simp [chaptersFold, firstChapterWith], ?_⟩
      simp [chaptersFold, firstChapterWith]
  | cons c chs ih =>
      intro p n
      have hfold : chaptersFold p (c :: chs) = chaptersFold (chapterStep p c) chs := by
        simp [chaptersFold]
      rw [hfold]
      obtain ⟨ih1, ih2, ih3⟩ := ih (chapterStep p c) n
      by_cases hn : c.number = n
      · -- the head chapter carries the number n
        subst hn
        have hbeq : (c.number == c.number) = true := by simp
        have hfirst : firstChapterWith (c :: chs) c.number = some c := by
          rw [firstChapterWith_cons, if_pos hbeq]
        by_cases hc : c.number ∈ p.2.insertedChapters
        · obtain ⟨hch, hctx⟩ := chapterStep_mem p c hc
          rw [hctx] at ih1 ih2
          rw [hch, hctx] at ih3
          refine ⟨ih1, ?_, ?_⟩
          · rw [ih2, hfirst]
            simp [hc]
          · rw [ih3, hfirst, if_pos hc, if_pos hc]
        · obtain ⟨hch, hctx⟩ := chapterStep_new p c hc
          rw [hctx] at ih1 ih2
          rw [hch, hctx] at ih3
          refine ⟨ih1, ?_, ?_⟩
          · rw [ih2, hfirst]
            simp
          · have hcin : c.number ∈ p.2.insertedChapters ++ [c.number] := by simp
            rw [ih3, hfirst, if_pos hcin, if_neg hc]
            have hr : rowsFor (p.1.db.chapters ++ [mkChapterRow p.2.bookId c])
                c.number = rowsFor p.1.db.chapters c.number
                  ++ [mkChapterRow p.2.bookId c] := by
              simp [rowsFor, List.filter_append, mkChapterRow]
            rw [hr]
            simp
      · -- the head chapter carries another number
        have hbeq : (c.number == n) = false := by simp [hn]
        have hfirst : firstChapterWith (c :: chs) n = firstChapterWith chs n := by
          rw [firstChapterWith_cons, if_neg (by simp [hbeq])]
        by_cases hc : c.number ∈ p.2.insertedChapters
        · obtain ⟨hch, hctx⟩ := chapterStep_mem p c hc
          rw [hctx] at ih1 ih2
          rw [hch, hctx] at ih3
          exact ⟨ih1, by rw [ih2, hfirst], by rw [ih3, hfirst]⟩
        · obtain ⟨hch, hctx⟩ := chapterStep_new p c hc
          rw [hctx] at ih1 ih2
          rw [hch, hctx] at ih3
          have hnin : (n ∈ p.2.insertedChapters ++ [c.number])
              ↔ n ∈ p.2.insertedChapters := by
            simp only [List.mem_append, List.mem_singleton]
            constructor
            · rintro (h | h)
              · exact h
              · exact absurd h.symm hn
            · exact Or.inl
          have hr : rowsFor (p.1.db.chapters ++ [mkChapterRow p.2.bookId c]) n
              = rowsFor p.1.db.chapters n := by
            simp [rowsFor, List.filter_append, mkChapterRow, hbeq]
          refine ⟨ih1, ?_, ?_⟩
          · rw [ih2, hfirst]
            constructor
            · rintro (h | h)
              · exact Or.inl (hnin.mp h)
              · exact Or.inr h
            · rintro (h | h)
              · exact Or.inl (hnin.mpr h)
              · exact Or.inr h
          · rw [ih3, hr, hfirst]
            by_cases hmem : n ∈ p.2.insertedChapters
            · rw [if_pos (hnin.mpr hmem), if_pos hmem]
            · rw [if_neg (fun h => hmem (hnin.mp h)), if_neg hmem]

/-- C10: within one pipeline run (fresh `insertedChapters` set, no chapter
rows yet), the first `storeChapter` call for a chapter number inserts the
chapter row with that unit's title and verse count; every later `storeChapter`
call for the same number is a no-op, and no `storeVerse` call ever touches the
chapters table — so the persisted row for each chapter number equals the row
built from the FIRST contributing chapter in chunk order, its `verse_count`
frozen at that first chunk's verse count even when later chunks append more
verses to the same chapter. -/
theorem chapterRow_fixed_by_first (docs : List ParsedDocument) (bookId : Nat)
    (st0 : PState) (h0 : st0.db.chapters = []) (n : Nat) :
    (∀ st ctx v k, (storeVerse st ctx v k).db.chapters = st.db.chapters) ∧
    (∀ st ctx c, c.number ∈ ctx.insertedChapters →
      storeChapter st ctx c = (st, ctx)) ∧
    rowsFor (runChunkData (st0, ⟨bookId, []⟩) docs).1.db.chapters n =
      (match firstChapterWith (allChapters docs) n with
       | none => []
       | some c => [mkChapterRow bookId c]) := by
  refine ⟨storeVerse_chapters, ?_, ?_⟩
  · intro st ctx c hcmem
    simp [storeChapter, hcmem]
  · rw [runChunkData_eq_chaptersFold]
    have h := (chaptersFold_spec (allChapters docs) (st0, ⟨bookId, []⟩) n).2.2
    rw [h]
    have hrows : rowsFor st0.db.chapters n = [] := by
      simp [rowsFor, h0]
    rw [hrows]
    simp

/-- Witness for C10: two chunks both contribute to chapter 1; the persisted
row keeps the first chunk's title and verse count (1 verse, not 3). -/
theorem chapterRow_fixed_by_first_witness :
    ((⟨⟨[], [], []⟩, []⟩ : PState).db.chapters = []) ∧
    ((∀ st ctx v k, (storeVerse st ctx v k).db.chapters = st.db.chapters) ∧
     (∀ st ctx c, c.number ∈ ctx.insertedChapters →
       storeChapter st ctx c = (st, ctx)) ∧
     rowsFor (runChunkData ((⟨⟨[], [], []⟩, []⟩ : PState), ⟨7, []⟩)
         [⟨"T".toList, "D".toList, "L".toList,
            [⟨1, "first".toList, [⟨1, "a".toList, "b".toList⟩]⟩]⟩,
          ⟨"T".toList, "D".toList, "L".toList,
            [⟨1, "later".toList, [⟨2, "c".toList, "d".toList⟩,
                                  ⟨3, "e".toList, "f".toList⟩]⟩]⟩]).1.db.chapters 1 =
       (match firstChapterWith (allChapters
           [⟨"T".toList, "D".toList, "L".toList,
              [⟨1, "first".toList, [⟨1, "a".toList, "b".toList⟩]⟩]⟩,
            ⟨"T".toList, "D".toList, "L".toList,
              [⟨1, "later".toList, [⟨2, "c".toList, "d".toList⟩,
                                    ⟨3, "e".toList, "f".toList⟩]⟩]⟩]) 1 with
        | none => []
        | some c => [mkChapterRow 7 c])) :=
  ⟨rfl, chapterRow_fixed_by_first _ 7 _ rfl 1⟩

/-! ## Merger (src/unnamed/part_004 and src/app/api/process/route.ts,
`mergeChapters`) -/

/-- One step of `mergeChapters`' forEach: if a chapter with this number is
already in the accumulated map (an assoc list in first-seen key order, as a
JS Map iterates), push the incoming verses onto it in place; otherwise append
the chapter ({...chapter, verses:[...chapter.verses]}, an observationally
identical copy) at the end. -/
def mergeInsert (acc : List ParsedChapter) (ch : ParsedChapter) :
    List ParsedChapter :=
  if acc.any fun e => e.number == ch.number then
    acc.map fun e =>
      if e.number == ch.number then { e with verses := e.verses ++ ch.verses }
      else e
  else acc ++ [ch]

/-- `mergeChapters`: merge an ordered list of per-unit chapter lists keyed by
chapter number, then sort ascending by number ((a, b) => a.number - b.number). -/
def mergeChapters (chapterLists : List (List ParsedChapter)) :
    List ParsedChapter :=
  (chapterLists.flatten.foldl mergeInsert []).mergeSort
    fun a b => decide (a.number ≤ b.number)

/-- The occurrences of chapter number `n` in a flattened unit sequence, in
unit (chunk) order. -/
def chapterOcc (l : List ParsedChapter) (n : Nat) : List ParsedChapter :=
  l.filter fun c => c.number == n

/-- The chapter assembled from its first occurrence and the later ones:
metadata from the first, verse lists concatenated in occurrence order. -/
def mergedChapter (c0 : ParsedChapter) (rest : List ParsedChapter) :
    ParsedChapter :=
  { c0 with verses := c0.verses ++ (rest.map ParsedChapter.verses).flatten }

theorem mergeInsert_updater_number (ch : ParsedChapter) (e : ParsedChapter) :
    (if e.number == ch.number
        then { e with verses := e.verses ++ ch.verses } else e).number
      = e.number := by
  by_cases h : (e.number == ch.number) = true <;> simp [h]

theorem mergeInsert_pairwise (acc : List ParsedChapter) (ch : ParsedChapter)
    (h : acc.Pairwise fun a b => a.number ≠ b.number) :
    (mergeInsert acc ch).Pairwise fun a b => a.number ≠ b.number := by
  unfold mergeInsert
  by_cases hP : (acc.any fun e => e.number == ch.number) = true
  · rw [if_pos hP]
    rw [List.pairwise_map]
    refine h.imp fun {a b} hab => ?_
    rw [mergeInsert_updater_number, mergeInsert_updater_number]
    exact hab
  · rw [if_neg hP]
    rw [List.pairwise_append]
    refine ⟨h, List.pairwise_singleton _ _, ?_⟩
    intro a ha b hb
    rw [List.mem_singleton] at hb
    subst hb
    intro heq
    apply hP
    rw [List.any_eq_true]
    exact ⟨a, ha, by simp [heq]⟩

theorem mergeInsert_find?_true (acc : List ParsedChapter) (ch : ParsedChapter)
    (hP : (acc.any fun e => e.number == ch.number) = true) (n : Nat) :
    (mergeInsert acc ch).find? (fun e => e.number == n)
      = (acc.find? fun e => e.number == n).map
          fun e => if e.number == ch.number
            then { e with verses := e.verses ++ ch.verses } else e := by
  unfold mergeInsert
  rw [if_pos hP, List.find?_map]
  have hfun : ((fun e => e.number == n) ∘ fun e =>
      if e.number == ch.number then { e with verses := e.verses ++ ch.verses }
      else e)
      = fun e : ParsedChapter => e.number == n := by
    funext e
    simp only [Function.comp_apply]
    rw [mergeInsert_updater_number]
  rw [hfun]

theorem mergeInsert_find?_false (acc : List ParsedChapter) (ch : ParsedChapter)
    (hP : ¬(acc.any fun e => e.number == ch.number) = true) (n : Nat) :
    (mergeInsert acc ch).find? (fun e => e.number == n)
      = ((acc.find? fun e => e.number == n).or
          (if ch.number == n then some ch else none)) := by
  unfold mergeInsert
  rw [if_neg hP, List.find?_append]
  congr 1
  by_cases hn : (ch.number == n) = true
  · rw [if_pos hn]
    exact @List.find?_cons_of_pos _ (fun e => e.number == n) ch [] hn
  · rw [if_neg hn]
    rw [@List.find?_cons_of_neg _ (fun e => e.number == n) ch [] hn,
      List.find?_nil]

theorem chapterOcc_cons (ch : ParsedChapter) (l : List ParsedChapter) (n : Nat) :
    chapterOcc (ch :: l) n
      = if ch.number == n then ch :: chapterOcc l n else chapterOcc l n := by
  simp [chapterOcc, List.filter_cons]

theorem foldl_mergeInsert_spec (l : List ParsedChapter) :
    ∀ acc : List ParsedChapter,
      acc.Pairwise (fun a b => a.number ≠ b.number) →
      (l.foldl mergeInsert acc).Pairwise (fun a b => a.number ≠ b.number) ∧
      ∀ n, (l.foldl mergeInsert acc).find? (fun e => e.number == n)
        = match acc.find? fun e => e.number == n with
          | some c => some { c with verses :=
              c.verses ++ ((chapterOcc l n).map ParsedChapter.verses).flatten }
          | none =>
              match chapterOcc l n with
              | [] => none
              | c0 :: rest => some (mergedChapter c0 rest) := by
  induction l with
  | nil =>
      intro acc hacc
      refine ⟨hacc, fun n => ?_⟩
      cases hfa : acc.find? fun e => e.number == n with
      | none => simp only [List.foldl_nil, hfa]; simp [chapterOcc]
      | some c => simp only [List.foldl_nil, hfa]; simp [chapterOcc]
  | cons ch l ih =>
      intro acc hacc
      rw [List.foldl_cons]
      have hacc' := mergeInsert_pairwise acc ch hacc
      obtain ⟨hpw, hfind⟩ := ih (mergeInsert acc ch) hacc'
      refine ⟨hpw, fun n => ?_⟩
      rw [hfind n]
      by_cases hP : (acc.any fun e => e.number == ch.number) = true
      · rw [mergeInsert_find?_true acc ch hP n]
        by_cases hn : (ch.number == n) = true
        · have hn' : ch.number = n := by simpa using hn
          subst hn'
          have hsome : (acc.find? fun e => e.number == ch.number).isSome
              = true := by
            rw [List.find?_isSome]
            exact List.any_eq_true.mp hP
          obtain ⟨c, hc⟩ := Option.isSome_iff_exists.mp hsome
          rw [hc]
          have hfc : (if c.number == ch.number
              then { c with verses := c.verses ++ ch.verses } else c)
              = { c with verses := c.verses ++ ch.verses } :=
            if_pos (List.find?_some hc)
          rw [chapterOcc_cons, if_pos (by simp)]
          simp only [Option.map_some', hfc, List.map_cons, List.flatten_cons]
          simp [List.append_assoc]
        · rw [chapterOcc_cons, if_neg hn]
          cases hfa : acc.find? fun e => e.number == n with
          | none => simp
          | some c =>
              have hcn : c.number = n := by
                have := List.find?_some hfa
                simpa using this
              have hfc : (if c.number == ch.number
                  then { c with verses := c.verses ++ ch.verses } else c) = c := by
                apply if_neg
                intro hcc
                apply hn
                have : c.number = ch.number := by simpa using hcc
                simp [← this, hcn]
              simp only [Option.map_some', hfc]
      · rw [mergeInsert_find?_false acc ch hP n]
        by_cases hn : (ch.number == n) = true
        · have hn' : ch.number = n := by simpa using hn
          subst hn'
          have hnone : acc.find? (fun e => e.number == ch.number) = none := by
            cases hfa : acc.find? fun e => e.number == ch.number with
            | none => rfl
            | some c =>
                exact absurd
                  (List.any_eq_true.mpr
                    ⟨c, List.mem_of_find?_eq_some hfa, List.find?_some hfa⟩) hP
          rw [hnone, if_pos (by simp), chapterOcc_cons, if_pos (by simp)]
          simp [mergedChapter]
        · rw [if_neg hn, chapterOcc_cons, if_neg hn]
          cases hfa : acc.find? fun e => e.number == n with
          | none => simp
          | some c => simp

theorem find?_eq_of_mem_distinct :
    ∀ l : List ParsedChapter,
      l.Pairwise (fun a b => a.number ≠ b.number) →
      ∀ c ∈ l, l.find? (fun e => e.number == c.number) = some c := by
  intro l
  induction l with
  | nil => intro _ c hc; cases hc
  | cons a l ih =>
      intro hpw c hc
      rw [List.pairwise_cons] at hpw
      cases hc with
      | head =>
          exact @List.find?_cons_of_pos _ (fun e => e.number == a.number) a l
            (by simp)
      | tail _ hm =>
          have hne : a.number ≠ c.number := hpw.1 c hm
          rw [@List.find?_cons_of_neg _ (fun e => e.number == c.number) a l
            (by simp [hne])]
          exact ih hpw.2 c hm

theorem mergeSort_singleton_eval (a : ParsedChapter)
    (le : ParsedChapter → ParsedChapter → Bool) :
    [a].mergeSort le = [a] :=
  List.perm_singleton.mp (List.mergeSort_perm [a] le)

/-- C5: `mergeChapters` returns one chapter per distinct chapter number
(numbers strictly ascend, so no two outputs share a number, and a number
appears in the output iff some unit contributed it); each output chapter
carries the metadata of the FIRST contributing chapter in unit (chunk) order
with the verse lists of all contributing chapters concatenated in that order,
not re-sorted; a chapter whose number is contributed by a single unit passes
through unchanged (`mergedChapter c0 [] = c0`). -/
theorem mergeChapters_spec (ls : List (List ParsedChapter)) :
    (mergeChapters ls).Pairwise (fun a b => a.number < b.number) ∧
    (∀ n, (∃ c ∈ ls.flatten, c.number = n)
        ↔ ∃ c ∈ mergeChapters ls, c.number = n) ∧
    (∀ c ∈ mergeChapters ls, ∃ c0 rest,
      chapterOcc ls.flatten c.number = c0 :: rest ∧ c = mergedChapter c0 rest) ∧
    (∀ c0, mergedChapter c0 [] = c0) := by
  obtain ⟨hpw, hfind⟩ := foldl_mergeInsert_spec ls.flatten [] List.Pairwise.nil
  have hperm : (mergeChapters ls).Perm (ls.flatten.foldl mergeInsert []) :=
    List.mergeSort_perm _ _
  have hfind' : ∀ n, (ls.flatten.foldl mergeInsert []).find?
      (fun e => e.number == n)
      = match chapterOcc ls.flatten n with
        | [] => none
        | c0 :: rest => some (mergedChapter c0 rest) := by
    intro n
    have h := hfind n
    simpa using h
  have hsorted : (mergeChapters ls).Pairwise
      (fun a b => (decide (a.number ≤ b.number)) = true) := by
    exact List.sorted_mergeSort
      (fun a b c h1 h2 => by
        simp only [decide_eq_true_eq] at h1 h2 ⊢
        omega)
      (fun a b => by
        rcases Nat.le_total a.number b.number with h | h <;> simp [h])
      (ls.flatten.foldl mergeInsert [])
  have hneq : (mergeChapters ls).Pairwise (fun a b => a.number ≠ b.number) :=
    (hperm.pairwise_iff fun h => h.symm).mpr hpw
  refine ⟨?_, ?_, ?_, ?_⟩
  · exact (hsorted.and hneq).imp fun {a b} h =>
      lt_of_le_of_ne (of_decide_eq_true h.1) h.2
  · intro n
    have hstep1 : (∃ c ∈ ls.flatten, c.number = n) ↔ chapterOcc ls.flatten n ≠ [] := by
      constructor
      · rintro ⟨c, hcm, hcn⟩
        exact List.ne_nil_of_mem
          (List.mem_filter.mpr ⟨hcm, by simp [hcn]⟩)
      · intro hne
        cases hoc : chapterOcc ls.flatten n with
        | nil => exact absurd hoc hne
        | cons c0 r =>
            have hc0 : c0 ∈ chapterOcc ls.flatten n := by
              rw [hoc]; exact List.mem_cons_self c0 r
            have := List.mem_filter.mp hc0
            exact ⟨c0, this.1, by simpa using this.2⟩
    have hstep2 : chapterOcc ls.flatten n ≠ []
        ↔ ∃ c ∈ ls.flatten.foldl mergeInsert [], c.number = n := by
      cases hoc : chapterOcc ls.flatten n with
      | nil =>
          simp only [ne_eq, not_true_eq_false, false_iff]
          rintro ⟨c, hcm, hcn⟩
          have hs := find?_eq_of_mem_distinct _ hpw c hcm
          rw [hfind' c.number, hcn, hoc] at hs
          cases hs
      | cons c0 r =>
          simp only [ne_eq, reduceCtorEq, not_false_eq_true, true_iff]
          have hs := hfind' n
          rw [hoc] at hs
          exact ⟨mergedChapter c0 r, List.mem_of_find?_eq_some hs,
            by simpa using List.find?_some hs⟩
    rw [hstep1, hstep2]
    constructor
    · rintro ⟨c, hcm, hcn⟩
      exact ⟨c, hperm.mem_iff.mpr hcm, hcn⟩
    · rintro ⟨c, hcm, hcn⟩
      exact ⟨c, hperm.mem_iff.mp hcm, hcn⟩
  · intro c hc
    have hcm : c ∈ ls.flatten.foldl mergeInsert [] := hperm.mem_iff.mp hc
    have hfm := find?_eq_of_mem_distinct _ hpw c hcm
    rw [hfind' c.number] at hfm
    cases hoc : chapterOcc ls.flatten c.number with
    | nil => rw [hoc] at hfm; cases hfm
    | cons c0 rest =>
        rw [hoc] at hfm
        refine ⟨c0, rest, rfl, ?_⟩
        have := Option.some.injEq _ _ ▸ hfm
        exact (Option.some.inj hfm).symm
  · intro c0
    simp [mergedChapter]

/-- Evaluation of `mergeChapters` on the claim's shared-chapter example. -/
theorem mergeChapters_example_eval :
    mergeChapters [[⟨1, "A".toList, [⟨1, "x".toList, "y".toList⟩]⟩],
                   [⟨1, "B".toList, [⟨2, "u".toList, "w".toList⟩]⟩]]
      = [⟨1, "A".toList, [⟨1, "x".toList, "y".toList⟩,
                          ⟨2, "u".toList, "w".toList⟩]⟩] := by
  have hfold : ([[⟨1, "A".toList, [⟨1, "x".toList, "y".toList⟩]⟩],
      [⟨1, "B".toList, [⟨2, "u".toList, "w".toList⟩]⟩]]
        : List (List ParsedChapter)).flatten.foldl mergeInsert []
      = [⟨1, "A".toList, [⟨1, "x".toList, "y".toList⟩,
                          ⟨2, "u".toList, "w".toList⟩]⟩] := by decide
  rw [mergeChapters, hfold]
  exact mergeSort_singleton_eval _ _

/-- Witness for C5: two units share chapter 1; the merged chapter keeps the
first unit's title and accumulates verses in unit order. -/
theorem mergeChapters_spec_witness :
    ((⟨1, "A".toList, [⟨1, "x".toList, "y".toList⟩, ⟨2, "u".toList, "w".toList⟩]⟩
        : ParsedChapter)
      ∈ mergeChapters [[⟨1, "A".toList, [⟨1, "x".toList, "y".toList⟩]⟩],
                       [⟨1, "B".toList, [⟨2, "u".toList, "w".toList⟩]⟩]]) ∧
    ∃ c0 rest,
      chapterOcc ([[⟨1, "A".toList, [⟨1, "x".toList, "y".toList⟩]⟩],
                   [⟨1, "B".toList, [⟨2, "u".toList, "w".toList⟩]⟩]]
          : List (List ParsedChapter)).flatten
          (⟨1, "A".toList, [⟨1, "x".toList, "y".toList⟩,
                            ⟨2, "u".toList, "w".toList⟩]⟩ : ParsedChapter).number
        = c0 :: rest ∧
      (⟨1, "A".toList, [⟨1, "x".toList, "y".toList⟩,
                        ⟨2, "u".toList, "w".toList⟩]⟩ : ParsedChapter)
        = mergedChapter c0 rest := by
  have hmem : (⟨1, "A".toList, [⟨1, "x".toList, "y".toList⟩,
      ⟨2, "u".toList, "w".toList⟩]⟩ : ParsedChapter)
      ∈ mergeChapters [[⟨1, "A".toList, [⟨1, "x".toList, "y".toList⟩]⟩],
                       [⟨1, "B".toList, [⟨2, "u".toList, "w".toList⟩]⟩]] := by
    rw [mergeChapters_example_eval]
    exact List.mem_singleton.mpr rfl
  exact ⟨hmem, (mergeChapters_spec _).2.2.1 _ hmem⟩

/-! ## LLM JSON extraction and sanitization (src/lib/llm.ts) -/

/-- A character of the regex class `[0-9a-fA-F]`. -/
def isHexDigitChar (c : Char) : Bool :=
  c.isDigit || ('a' ≤ c && c ≤ 'f') || ('A' ≤ c && c ≤ 'F')

/-- First `replace` pass of `sanitizeJSON`: each `\xHH` (H a hex digit)
becomes `\u00HH`; a global left-to-right regex replace — after a match the
scan resumes past it, after a non-match it advances one character. -/
def fixHexEscapes : List Char → List Char
  | '\\' :: 'x' :: c1 :: c2 :: rest =>
      if isHexDigitChar c1 && isHexDigitChar c2 then
        '\\' :: 'u' :: '0' :: '0' :: c1 :: c2 :: fixHexEscapes rest
      else
        -- failed match: the scan resumes at the following character; since
        -- no match can begin at that x, it may be emitted directly too
        '\\' :: 'x' :: fixHexEscapes (c1 :: c2 :: rest)
  | c :: rest => c :: fixHexEscapes rest
  | [] => []

/-- The characters the second pass accepts after a backslash (the negative
lookahead class `["\\/bfnrtu]`). -/
def isJsonEscapeChar (c : Char) : Bool :=
  c == '"' || c == '\\' || c == '/' || c == 'b' || c == 'f' || c == 'n'
    || c == 'r' || c == 't' || c == 'u'

/-- Second `replace` pass of `sanitizeJSON`: double any backslash NOT
followed by a recognized JSON escape character (a trailing backslash
included); the lookahead inspects the original string, so consecutive
backslashes shield each other pairwise. -/
def doubleBadBackslashes : List Char → List Char
  | [] => []
  | '\\' :: rest =>
      match rest with
      | c :: _ =>
          if isJsonEscapeChar c then '\\' :: doubleBadBackslashes rest
          else '\\' :: '\\' :: doubleBadBackslashes rest
      | [] => ['\\', '\\']
  | c :: rest => c :: doubleBadBackslashes rest

/-- `sanitizeJSON` (src/lib/llm.ts): hex-escape repair, then backslash
doubling. -/
def sanitizeJSON (s : List Char) : List Char :=
  doubleBadBackslashes (fixHexEscapes s)

/-- The prefix of the input through its LAST '}' (none when no '}' occurs):
the greedy end of the regex `/\{[\s\S]*\}/`. -/
def takeToLastClose : List Char → Option (List Char)
  | [] => none
  | c :: rest =>
      match takeToLastClose rest with
      | some s => some (c :: s)
      | none => if c == '}' then some [c] else none

/-- The span matched by `/\{[\s\S]*\}/`: drop everything before the first
'{', then keep through the last '}'; `none` when the regex does not match
(no '{', or no '}' after the first '{'). -/
def matchBraceSpan (t : List Char) : Option (List Char) :=
  match t.dropWhile (fun c => !(c == '{')) with
  | [] => none
  | t1 => takeToLastClose t1

theorem takeToLastClose_none (post : List Char) (h : '}' ∉ post) :
    takeToLastClose post = none := by
  induction post with
  | nil => rfl
  | cons c rest ih =>
      rw [List.mem_cons] at h
      push_neg at h
      rw [takeToLastClose, ih h.2, if_neg (by simp [Ne.symm h.1])]

theorem takeToLastClose_split (l post : List Char) (h : '}' ∉ post) :
    takeToLastClose (l ++ '}' :: post) = some (l ++ ['}']) := by
  induction l with
  | nil =>
      rw [List.nil_append, takeToLastClose, takeToLastClose_none post h]
      simp
  | cons c l ih =>
      rw [List.cons_append, takeToLastClose, ih]
      rfl

/-- Modelled from the spec: JSON values as produced by the external
`JSON.parse` collaborator.  Numbers keep their lexeme (no claim inspects a
numeric value, only parse success/failure). -/
inductive JVal where
  | jnull
  | jbool (b : Bool)
  | jnum (lexeme : List Char)
  | jstr (s : List Char)
  | jarr (elems : List JVal)
  | jobj (fields : List (List Char × JVal))
  deriving Repr

/-- JSON insignificant whitespace. -/
def isJsonWs (c : Char) : Bool :=
  c == ' ' || c == '\t' || c == '\n' || c == '\r'

def skipWs (s : List Char) : List Char :=
  s.dropWhile isJsonWs

def hexVal (c : Char) : Nat :=
  if c.isDigit then c.toNat - '0'.toNat
  else if 'a' ≤ c ∧ c ≤ 'f' then c.toNat - 'a'.toNat + 10
  else c.toNat - 'A'.toNat + 10

/-- Body of a JSON string after the opening quote: returns the decoded
characters and the input after the closing quote.  Rejects what `JSON.parse`
rejects: unknown escapes, raw control characters, an unterminated string. -/
def parseStringBody : List Char → Option (List Char × List Char)
  | [] => none
  | '"' :: rest => some ([], rest)
  | '\\' :: esc =>
      match esc with
      | '"' :: r => (parseStringBody r).map fun (s, r2) => ('"' :: s, r2)
      | '\\' :: r => (parseStringBody r).map fun (s, r2) => ('\\' :: s, r2)
      | '/' :: r => (parseStringBody r).map fun (s, r2) => ('/' :: s, r2)
      | 'b' :: r => (parseStringBody r).map fun (s, r2) => (Char.ofNat 8 :: s, r2)
      | 'f' :: r => (parseStringBody r).map fun (s, r2) => (Char.ofNat 12 :: s, r2)
      | 'n' :: r => (parseStringBody r).map fun (s, r2) => ('\n' :: s, r2)
      | 'r' :: r => (parseStringBody r).map fun (s, r2) => ('\r' :: s, r2)
      | 't' :: r => (parseStringBody r).map fun (s, r2) => ('\t' :: s, r2)
      | 'u' :: h1 :: h2 :: h3 :: h4 :: r =>
          if isHexDigitChar h1 && isHexDigitChar h2
              && isHexDigitChar h3 && isHexDigitChar h4 then
            (parseStringBody r).map fun (s, r2) =>
              (Char.ofNat (4096 * hexVal h1 + 256 * hexVal h2
                 + 16 * hexVal h3 + hexVal h4) :: s, r2)
          else none
      | _ => none
  | c :: rest =>
      if c.toNat < 32 then none
      else (parseStringBody rest).map fun (s, r2) => (c :: s, r2)

/-- The longest digit prefix and the remaining input. -/
def takeDigits : List Char → List Char × List Char
  | [] => ([], [])
  | c :: rest =>
      if c.isDigit then
        let (ds, r) := takeDigits rest
        (c :: ds, r)
      else ([], c :: rest)

/-- JSON number lexeme: `-? int frac? exp?`.  A `0` followed by more digits
stops after the `0`, as in the JSON grammar (the leftover digits then make
the surrounding parse fail, matching `JSON.parse`). -/
def parseNumber (s : List Char) : Option (List Char × List Char) :=
  let (sign, s1) : List Char × List Char :=
    match s with
    | '-' :: r => (['-'], r)
    | _ => ([], s)
  match s1 with
  | [] => none
  | c :: r =>
      if c = '0' then
        (parseNumTail r).map fun (tail, rest) => (sign ++ ['0'] ++ tail, rest)
      else if c.isDigit then
        let (ds, r2) := takeDigits r
        (parseNumTail r2).map fun (tail, rest) => (sign ++ c :: ds ++ tail, rest)
      else none
where
  /-- Optional fraction then optional exponent. -/
  parseNumTail (s : List Char) : Option (List Char × List Char) :=
    let (frac, s2) : List Char × Option (List Char) :=
      match s with
      | '.' :: r =>
          match takeDigits r with
          | ([], _) => ([], none)
          | (ds, r2) => ('.' :: ds, some r2)
      | _ => ([], some s)
    match s2 with
    | none => none
    | some s3 =>
        match s3 with
        | 'e' :: r => (parseExpTail r).map fun (ex, rest) => (frac ++ 'e' :: ex, rest)
        | 'E' :: r => (parseExpTail r).map fun (ex, rest) => (frac ++ 'E' :: ex, rest)
        | _ => some (frac, s3)
  /-- Sign and digits of an exponent. -/
  parseExpTail (s : List Char) : Option (List Char × List Char) :=
    let (sg, s2) : List Char × List Char :=
      match s with
      | '+' :: r => (['+'], r)
      | '-' :: r => (['-'], r)
      | _ => ([], s)
    match takeDigits s2 with
    | ([], _) => none
    | (ds, r) => some (sg ++ ds, r)

mutual

/-- Modelled from the spec: a JSON value parser with the call depth bounded
by fuel (every recursive descent consumes input, so `length + 2` fuel always
suffices); mirrors the value grammar `JSON.parse` accepts. -/
def parseValue : Nat → List Char → Option (JVal × List Char)
  | 0, _ => none
  | fuel + 1, s =>
      match s with
      | '"' :: rest => (parseStringBody rest).map fun (str, r) => (.jstr str, r)
      | '{' :: rest =>
          (match skipWs rest with
           | '}' :: r => some (.jobj [], r)
           | s1 => (parseMembers fuel s1).map fun (fs, r) => (.jobj fs, r))
      | '[' :: rest =>
          (match skipWs rest with
           | ']' :: r => some (.jarr [], r)
           | s1 => (parseElements fuel s1).map fun (es, r) => (.jarr es, r))
      | 't' :: 'r' :: 'u' :: 'e' :: rest => some (.jbool true, rest)
      | 'f' :: 'a' :: 'l' :: 's' :: 'e' :: rest => some (.jbool false, rest)
      | 'n' :: 'u' :: 'l' :: 'l' :: rest => some (.jnull, rest)
      | s => (parseNumber s).map fun (lex, r) => (.jnum lex, r)
termination_by structural fuel _ => fuel

/-- Members of a JSON object, positioned at a key (after whitespace). -/
def parseMembers : Nat → List Char →
    Option (List (List Char × JVal) × List Char)
  | 0, _ => none
  | fuel + 1, s =>
      match s with
      | '"' :: rest =>
          match parseStringBody rest with
          | none => none
          | some (key, r1) =>
              match skipWs r1 with
              | ':' :: r2 =>
                  match parseValue fuel (skipWs r2) with
                  | none => none
                  | some (v, r3) =>
                      match skipWs r3 with
                      | ',' :: r4 =>
                          (parseMembers fuel (skipWs r4)).map
                            fun (fs, r) => ((key, v) :: fs, r)
                      | '}' :: r4 => some ([(key, v)], r4)
                      | _ => none
              | _ => none
      | _ => none
termination_by structural fuel _ => fuel

/-- Elements of a JSON array, positioned at a value (after whitespace). -/
def parseElements : Nat → List Char → Option (List JVal × List Char)
  | 0, _ => none
  | fuel + 1, s =>
      match parseValue fuel s with
      | none => none
      | some (v, r1) =>
          match skipWs r1 with
          | ',' :: r2 =>
              (parseElements fuel (skipWs r2)).map fun (es, r) => (v :: es, r)
          | ']' :: r2 => some ([v], r2)
          | _ => none
termination_by structural fuel _ => fuel
end

/-- Modelled from the spec: the external `JSON.parse` — exactly one JSON
value with surrounding whitespace; `none` stands for a thrown SyntaxError. -/
def jsonParse (s : List Char) : Option JVal :=
  match parseValue (s.length + 2) (skipWs s) with
  | some (v, rest) => if skipWs rest = [] then some v else none
  | none => none

/-- `extractJSON` (src/lib/llm.ts): take the `/\{[\s\S]*\}/` regex match of
the response, sanitize it, `JSON.parse` it; throw when the regex finds
nothing ("No JSON found in response") or when the parse fails (the message
stands for the SyntaxError text). -/
def extractJSON (t : List Char) : Except (List Char) JVal :=
  match matchBraceSpan t with
  | none => .error "No JSON found in response".toList
  | some span =>
      match jsonParse (sanitizeJSON span) with
      | some v => .ok v
      | none => .error "Unexpected token in JSON".toList

/-- Defined from the claim's words, for comparison with the source: walk the
input counting brace depth and stop at the '}' that balances the first '{'. -/
def balancedFrom : Nat → List Char → List Char → Option (List Char)
  | depth, acc, '{' :: rest => balancedFrom (depth + 1) ('{' :: acc) rest
  | depth, acc, '}' :: rest =>
      if depth ≤ 1 then some (('}' :: acc).reverse)
      else balancedFrom (depth - 1) ('}' :: acc) rest
  | depth, acc, c :: rest => balancedFrom depth (c :: acc) rest
  | _, _, [] => none

/-- Defined from the claim's words: the FIRST balanced-brace {...} span of
the input. -/
def firstBalancedSpan (t : List Char) : Option (List Char) :=
  match t.dropWhile (fun c => !(c == '{')) with
  | [] => none
  | t1 => balancedFrom 0 [] t1

/-- C3 counterexample: the regex `/\{[\s\S]*\}/` in extractJSON is greedy —
it spans from the first '{' to the LAST '}' of the response, not the first
balanced-brace span.  On the response `{"a":"b"} }` the first balanced span
`{"a":"b"}` exists and its sanitized form parses, so under the claim
extractJSON would succeed; instead the matched span runs through the
trailing '}' and extractJSON throws a parse error. -/
theorem extractJSON_greedy_counterexample :
    firstBalancedSpan "\x7b\"a\":\"b\"\x7d \x7d".toList
      = some "\x7b\"a\":\"b\"\x7d".toList ∧
    jsonParse (sanitizeJSON "\x7b\"a\":\"b\"\x7d".toList)
      = some (.jobj [("a".toList, .jstr "b".toList)]) ∧
    matchBraceSpan "\x7b\"a\":\"b\"\x7d \x7d".toList
      = some "\x7b\"a\":\"b\"\x7d \x7d".toList ∧
    extractJSON "\x7b\"a\":\"b\"\x7d \x7d".toList
      = .error "Unexpected token in JSON".toList :=
  ⟨rfl, rfl, rfl, rfl⟩

theorem dropWhile_notBrace_append (pre l : List Char) (h : '{' ∉ pre) :
    (pre ++ l).dropWhile (fun c => !(c == '{'))
      = l.dropWhile (fun c => !(c == '{')) := by
  induction pre with
  | nil => rfl
  | cons c pre ih =>
      rw [List.mem_cons] at h
      push_neg at h
      rw [List.cons_append, List.dropWhile_cons,
        if_pos (by simp [Ne.symm h.1])]
      exact ih h.2

/-- C3 amended: extractJSON locates the span from the FIRST '{' through the
LAST '}' of the response (the greedy regex match, which may be larger than
the first balanced-brace span), applies the sanitization pass, and parses
it; if the response has no '{' at all, or no '}' after its first '{', or
parsing the sanitized span still fails, the call fails with an extraction
error (throws). -/
theorem extractJSON_span :
    (∀ pre mid post, '{' ∉ pre → '}' ∉ post →
      extractJSON (pre ++ ('{' :: (mid ++ ('}' :: post))))
        = match jsonParse (sanitizeJSON ('{' :: (mid ++ ['}']))) with
          | some v => .ok v
          | none => .error "Unexpected token in JSON".toList) ∧
    (∀ t, '{' ∉ t →
      extractJSON t = .error "No JSON found in response".toList) ∧
    (∀ pre rest, '{' ∉ pre → '}' ∉ rest →
      extractJSON (pre ++ ('{' :: rest))
        = .error "No JSON found in response".toList) := by
  refine ⟨?_, ?_, ?_⟩
  · intro pre mid post hpre hpost
    have hdrop : (pre ++ ('{' :: (mid ++ ('}' :: post)))).dropWhile
        (fun c => !(c == '{')) = '{' :: (mid ++ ('}' :: post)) := by
      rw [dropWhile_notBrace_append pre _ hpre, List.dropWhile_cons,
        if_neg (by simp)]
    have hspan : matchBraceSpan (pre ++ ('{' :: (mid ++ ('}' :: post))))
        = some ('{' :: (mid ++ ['}'])) := by
      unfold matchBraceSpan
      rw [hdrop]
      show takeToLastClose ('{' :: (mid ++ ('}' :: post)))
        = some ('{' :: (mid ++ ['}']))
      have h2 := takeToLastClose_split ('{' :: mid) post hpost
      rw [List.cons_append, List.cons_append] at h2
      exact h2
    unfold extractJSON
    rw [hspan]
  · intro t ht
    have hdrop : t.dropWhile (fun c => !(c == '{')) = [] := by
      have h2 := dropWhile_notBrace_append t [] ht
      simpa using h2
    have hspan : matchBraceSpan t = none := by
      unfold matchBraceSpan
      rw [hdrop]
    unfold extractJSON
    rw [hspan]
  · intro pre rest hpre hrest
    have hdrop : (pre ++ ('{' :: rest)).dropWhile (fun c => !(c == '{'))
        = '{' :: rest := by
      rw [dropWhile_notBrace_append pre _ hpre, List.dropWhile_cons,
        if_neg (by simp)]
    have hspan : matchBraceSpan (pre ++ ('{' :: rest)) = none := by
      unfold matchBraceSpan
      rw [hdrop]
      show takeToLastClose ('{' :: rest) = none
      apply takeToLastClose_none
      rw [List.mem_cons]
      push_neg
      exact ⟨by decide, hrest⟩
    unfold extractJSON
    rw [hspan]

/-- Witness for the amended C3: junk around a JSON object whose last '}' is
the object's own; extraction succeeds on the sanitized span. -/
theorem extractJSON_span_witness :
    ('{' ∉ "x ".toList ∧ '}' ∉ " y".toList) ∧
    extractJSON ("x ".toList ++ ('{' :: ("\"a\":\"b\"".toList ++ ('}' :: " y".toList))))
      = match jsonParse (sanitizeJSON ('{' :: ("\"a\":\"b\"".toList ++ ['}']))) with
        | some v => .ok v
        | none => .error "Unexpected token in JSON".toList :=
  ⟨⟨by decide, by decide⟩,
   extractJSON_span.1 "x ".toList "\"a\":\"b\"".toList " y".toList
     (by decide) (by decide)⟩

/-- C8: the sanitization pass inside extractJSON rewrites `\x41` to the
valid escape `\u0041`, so the parsed result contains the character it
represents ('A'); and it doubles ANY stray backslash not followed by a
recognized JSON escape character, so such a span still parses (here to the
two characters backslash and q). -/
theorem sanitizeJSON_repairs :
    sanitizeJSON "\x7b\"a\":\"\\x41\"\x7d".toList
      = "\x7b\"a\":\"\\u0041\"\x7d".toList ∧
    extractJSON "\x7b\"a\":\"\\x41\"\x7d".toList
      = .ok (.jobj [("a".toList, .jstr ['A'])]) ∧
    (∀ (c : Char) (rest : List Char), isJsonEscapeChar c = false →
      doubleBadBackslashes ('\\' :: c :: rest)
        = '\\' :: '\\' :: doubleBadBackslashes (c :: rest)) ∧
    extractJSON "\x7b\"a\":\"\\q\"\x7d".toList
      = .ok (.jobj [("a".toList, .jstr ['\\', 'q'])]) := by
  refine ⟨rfl, rfl, ?_, rfl⟩
  intro c rest hc
  simp [doubleBadBackslashes, hc]

/-- Witness for C8 on the stray backslash `\q`. -/
theorem sanitizeJSON_repairs_witness :
    isJsonEscapeChar 'q' = false ∧
    doubleBadBackslashes ['\\', 'q'] = '\\' :: '\\' :: doubleBadBackslashes ['q'] :=
  ⟨by decide, sanitizeJSON_repairs.2.2.1 'q' [] (by decide)⟩

/-! ## Pipeline orchestration (src/unnamed/part_004: parseDocument, POST) -/

def MAX_CHUNK_SIZE : Nat := 25000

/-- `countVerses` (src/unnamed/part_004). -/
def countVerses (chapters : List ParsedChapter) : Nat :=
  chapters.foldl (fun sum ch => sum + ch.verses.length) 0

/-- `extractMetadata` (src/unnamed/part_004): (title, description, language)
of the first unit, with defaults when no unit parsed. -/
def extractMetadata (docs : List ParsedDocument) :
    List Char × List Char × List Char :=
  match docs with
  | [] => ("Unknown".toList, "No description".toList, "Unknown".toList)
  | first :: _ => (first.title, first.description, first.language)

/-- `combineResults` (src/unnamed/part_004); its argument is the already
null-filtered unit results, so the inner filter is a no-op here. -/
def combineResults (docs : List ParsedDocument) : ParsedDocument :=
  { title := (extractMetadata docs).1,
    description := (extractMetadata docs).2.1,
    language := (extractMetadata docs).2.2,
    chapters := mergeChapters (docs.map ParsedDocument.chapters) }

/-- The loop of `parseChunks` (src/unnamed/part_004) with the per-chunk LLM
outcome injected: `llm i` is the parse result for chunk i (`none` is an
extraction failure — logged by the source and skipped); a parsed unit is
persisted immediately and collected. -/
def parseChunksGo (llm : Nat → Option ParsedDocument) (i : Nat) :
    List TextChunk → PState → Ctx → List ParsedDocument × PState × Ctx
  | [], st, ctx => ([], st, ctx)
  | _ :: rest, st, ctx =>
      match llm i with
      | some parsed =>
          let q := storeChunkData st ctx parsed
          let r := parseChunksGo llm (i + 1) rest q.1 q.2
          (parsed :: r.1, r.2)
      | none => parseChunksGo llm (i + 1) rest st ctx

/-- `parseChunks` (src/unnamed/part_004). -/
def parseChunks (llm : Nat → Option ParsedDocument) (chunks : List TextChunk)
    (st : PState) (ctx : Ctx) : List ParsedDocument × PState × Ctx :=
  parseChunksGo llm 0 chunks st ctx

/-- `parseDocument` (src/unnamed/part_004) with the LLM outcomes injected:
`llmSingle` for the single-unit request, `llm i` for chunk i of a
multi-chunk run.  In single-unit mode a failed extraction degrades to the
empty ParsedDocument (title "Unknown", empty description, no chapters). -/
def parseDocument (text : List Char) (llmSingle : Option ParsedDocument)
    (llm : Nat → Option ParsedDocument) (st : PState) (ctx : Ctx) :
    ParsedDocument × PState × Ctx :=
  if text.length ≤ MAX_CHUNK_SIZE then
    match llmSingle with
    | some result =>
        let q := storeChunkData st ctx result
        (result, q.1, q.2)
    | none =>
        (⟨"Unknown".toList, "".toList, "Unknown".toList, []⟩, st, ctx)
  else
    let chunks := chunkText text MAX_CHUNK_SIZE
    let r := parseChunks llm chunks st ctx
    (combineResults r.1, r.2)

/-- The placeholder book shell `createBook` inserts before any parsing
(src/unnamed/part_004). -/
def bookShell (documentId newBookId : Nat) : BookRow :=
  { id := newBookId, documentId := documentId,
    title := "Processing...".toList,
    description := "Document is being processed".toList,
    language := "Unknown".toList, totalChapters := 0, totalVerses := 0 }

/-- The finalized row `updateBook` writes from the parsed document. -/
def finalizeBookRow (shell : BookRow) (parsed : ParsedDocument) : BookRow :=
  { shell with
      title := parsed.title, description := parsed.description,
      language := parsed.language,
      totalChapters := parsed.chapters.length,
      totalVerses := countVerses parsed.chapters }

/-- The tail of the POST run: finalize the shell row in the store and
return it. -/
def finishRun (newBookId : Nat) (shell : BookRow)
    (r : ParsedDocument × PState × Ctx) : DB × BookRow :=
  ({ r.2.1.db with
      books := r.2.1.db.books.map
        (fun b => if b.id == newBookId then finalizeBookRow shell r.1 else b) },
   finalizeBookRow shell r.1)

/-- `POST` of the process route (src/unnamed/part_004) with collaborator
outcomes injected (the fetched text and the LLM results).  `createBook`
inserts the placeholder shell before any parsing; `updateBook` finalizes
that row from the parsed document.  Request decoding, info logging and the
HTTP envelope are elided; the run returns the store and the finalized
book row. -/
def runProcessPOST (documentId : Nat) (text : List Char)
    (llmSingle : Option ParsedDocument) (llm : Nat → Option ParsedDocument)
    (db : DB) (newBookId : Nat) : DB × BookRow :=
  finishRun newBookId (bookShell documentId newBookId)
    (parseDocument text llmSingle llm
      { db := { db with books := db.books ++ [bookShell documentId newBookId] },
        logs := [] }
      { bookId := newBookId, insertedChapters := [] })

/-- C6: in single-unit mode (text length at most the 25,000-character chunk
threshold), when extraction of the unit fails, parseDocument returns the
empty ParsedDocument (title "Unknown", empty chapter list) instead of
raising, and the POST run still produces a Book record: the shell created at
run start is finalized (title "Unknown", zero chapters and verses) and is
present in the store, rather than the run aborting. -/
theorem singleUnit_failure_degrades (documentId : Nat) (text : List Char)
    (hlen : text.length ≤ MAX_CHUNK_SIZE) (llm : Nat → Option ParsedDocument)
    (st : PState) (ctx : Ctx) (db : DB) (newBookId : Nat) :
    parseDocument text none llm st ctx
      = (⟨"Unknown".toList, "".toList, "Unknown".toList, []⟩, st, ctx) ∧
    (runProcessPOST documentId text none llm db newBookId).2
      = { id := newBookId, documentId := documentId,
          title := "Unknown".toList, description := "".toList,
          language := "Unknown".toList, totalChapters := 0,
          totalVerses := 0 } ∧
    (runProcessPOST documentId text none llm db newBookId).2
      ∈ (runProcessPOST documentId text none llm db newBookId).1.books := by
  have h1' : ∀ st0 ctx0, parseDocument text none llm st0 ctx0
      = (⟨"Unknown".toList, "".toList, "Unknown".toList, []⟩, st0, ctx0) := by
    intro st0 ctx0
    unfold parseDocument
    rw [if_pos hlen]
  refine ⟨h1' st ctx, ?_, ?_⟩
  · unfold runProcessPOST
    rw [h1']
    unfold finishRun finalizeBookRow bookShell
    simp [countVerses]
  · unfold runProcessPOST
    rw [h1']
    unfold finishRun
    simp only [List.map_append, List.map_cons, List.map_nil]
    apply List.mem_append.mpr
    right
    simp [bookShell]

/-- Witness for C6: a 2-character text whose single-unit extraction fails. -/
theorem singleUnit_failure_degrades_witness :
    "hi".toList.length ≤ MAX_CHUNK_SIZE ∧
    (parseDocument "hi".toList none (fun _ => none) ⟨⟨[], [], []⟩, []⟩ ⟨5, []⟩
        = (⟨"Unknown".toList, "".toList, "Unknown".toList, []⟩,
           (⟨⟨[], [], []⟩, []⟩ : PState), (⟨5, []⟩ : Ctx)) ∧
     (runProcessPOST 1 "hi".toList none (fun _ => none) ⟨[], [], []⟩ 5).2
        = { id := 5, documentId := 1, title := "Unknown".toList,
            description := "".toList, language := "Unknown".toList,
            totalChapters := 0, totalVerses := 0 } ∧
     (runProcessPOST 1 "hi".toList none (fun _ => none) ⟨[], [], []⟩ 5).2
        ∈ (runProcessPOST 1 "hi".toList none (fun _ => none) ⟨[], [], []⟩ 5).1.books) :=
  ⟨by decide,
   singleUnit_failure_degrades 1 "hi".toList (by decide) (fun _ => none)
     ⟨⟨[], [], []⟩, []⟩ ⟨5, []⟩ ⟨[], [], []⟩ 5⟩
